import Mathlib

/-!
# Verification of `chattool/request.py`

A shallow embedding of the request helpers of the `openai_api_call`
repository (`chattool/request.py`) together with the pieces of CPython's
`urllib.parse` (version 3.11) that they call, and proofs about the
embedded program.

URL strings are modelled as `List Char`; the top-level API mirrors the
Python functions (`is_valid_url`, `normalize_url`, `chat_completion`,
`valid_models`).  The HTTP transport and the JSON codec are external
collaborators of the program and are modelled as parameters
(a `transport` function) and as fields of the response value.
-/

set_option autoImplicit false

namespace Chattool

/-! ## Characters and small helpers -/

/-- `'\x00'..'\x1f'` together with `' '`: the set
`_WHATWG_C0_CONTROL_OR_SPACE` that `urlsplit` strips from the left of its
input. -/
def isC0OrSpace (c : Char) : Bool := c.toNat ≤ 0x20

/-- `_UNSAFE_URL_BYTES_TO_REMOVE = ['\t', '\r', '\n']`, removed everywhere
in the URL by `urlsplit`. -/
def isUnsafeByte (c : Char) : Bool := c = '\t' || c = '\r' || c = '\n'

/-- `c.isascii() and c.isalpha()` for the first character of a scheme. -/
def isAsciiAlpha (c : Char) : Bool :=
  ('a' ≤ c && c ≤ 'z') || ('A' ≤ c && c ≤ 'Z')

/-- Python `str.lower()` restricted to one character.  `urlsplit` only
lowercases strings all of whose characters lie in `scheme_chars`, which
are ASCII, so the ASCII-only case conversion is faithful there. -/
def pyLowerChar (c : Char) : Char :=
  if 'A' ≤ c ∧ c ≤ 'Z' then Char.ofNat (c.toNat + 32) else c

/-- The characters allowed in a URL scheme (`urllib.parse.scheme_chars`). -/
def scheme_chars : List Char :=
  "abcdefghijklmnopqrstuvwxyzABCDEFGHIJKLMNOPQRSTUVWXYZ0123456789+-.".toList

/-- `urllib.parse.uses_netloc`. -/
def uses_netloc : List (List Char) :=
  (["", "ftp", "http", "gopher", "nntp", "telnet", "imap", "wais", "file",
    "mms", "https", "shttp", "snews", "prospero", "rtsp", "rtsps", "rtspu",
    "rsync", "svn", "svn+ssh", "sftp", "nfs", "git", "git+ssh", "ws",
    "wss"].map String.toList)

/-- `urllib.parse.uses_params`. -/
def uses_params : List (List Char) :=
  (["", "ftp", "hdl", "prospero", "http", "imap", "https", "shttp", "rtsp",
    "rtsps", "rtspu", "sip", "sips", "mms", "sftp", "tel"].map String.toList)

/-- Python's `str.replace("///", "//")`: replace the non-overlapping
occurrences of three consecutive slashes, scanning left to right, by two
slashes.  This is the post-processing step of `normalize_url`
(`request.py`, line 42). -/
def replace3 : List Char → List Char
  | '/' :: '/' :: '/' :: rest => '/' :: '/' :: replace3 rest
  | c :: rest => c :: replace3 rest
  | [] => []

/-- Does the list contain three consecutive slashes (`"///" in s`)? -/
def hasRun3 : List Char → Bool
  | [] => false
  | c :: rest => (decide (c = '/') && decide (rest.take 2 = ['/', '/'])) || hasRun3 rest

/-- Does the list contain four consecutive slashes? -/
def hasRun4 : List Char → Bool
  | [] => false
  | c :: rest => (decide (c = '/') && decide (rest.take 3 = ['/', '/', '/'])) || hasRun4 rest

/-! ## `urllib.parse` (CPython 3.11)

The fragments of `urlparse`/`urlunparse` reachable from
`chattool/request.py`.  Two `ValueError` side paths of `urlsplit` are
outside this model and are modelled as accepting: the validation of
bracketed (IPv6) hosts, and the NFKC validation of `_checknetloc`, which
returns without raising whenever the netloc is pure ASCII. -/

/-- The scheme-splitting step of `urlsplit`: if the first colon is
preceded by a nonempty run of `scheme_chars` starting with an ASCII
letter, split it off and lowercase it; otherwise the scheme is empty. -/
def splitScheme (url : List Char) : List Char × List Char :=
  match url.findIdx? (· == ':') with
  | some i =>
    if 0 < i ∧ isAsciiAlpha (url.headD ' ') ∧ (url.take i).all (fun c => scheme_chars.contains c)
    then ((url.take i).map pyLowerChar, url.drop (i + 1))
    else ([], url)
  | none => ([], url)

/-- `_splitnetloc(url, 2)`: the netloc runs from position 2 up to the
first `'/'`, `'?'` or `'#'` (or the end), the rest starts there. -/
def _splitnetloc (url : List Char) : List Char × List Char :=
  let rest := url.drop 2
  (rest.takeWhile (fun c => !(c == '/' || c == '?' || c == '#')),
   rest.dropWhile (fun c => !(c == '/' || c == '?' || c == '#')))

/-- `url.split(sep, 1)`: the part before the first `sep` and the part
after it (everything unchanged, and an empty second part, when `sep` does
not occur), as used for the `'#'` and `'?'` splits of `urlsplit`. -/
def splitOnFirst (sep : Char) (l : List Char) : List Char × List Char :=
  (l.takeWhile (· ≠ sep), (l.dropWhile (· ≠ sep)).drop 1)

structure SplitResult where
  scheme : List Char
  netloc : List Char
  path : List Char
  query : List Char
  fragment : List Char
deriving DecidableEq

structure ParseResult where
  scheme : List Char
  netloc : List Char
  path : List Char
  params : List Char
  query : List Char
  fragment : List Char
deriving DecidableEq

/-- `urllib.parse.urlsplit` with default arguments (`scheme=''`,
`allow_fragments=True`), CPython 3.11. -/
def urlsplit (url0 : List Char) : SplitResult :=
  let url1 := (url0.dropWhile isC0OrSpace).filter (fun c => !isUnsafeByte c)
  let sp := splitScheme url1
  let nl := if sp.2.take 2 = ['/', '/'] then _splitnetloc sp.2 else ([], sp.2)
  let fr := splitOnFirst '#' nl.2
  let qu := splitOnFirst '?' fr.1
  ⟨sp.1, nl.1, qu.1, qu.2, fr.2⟩

/-- `url.rfind('/')` for a list that contains `'/'`: the index of the
last slash. -/
def lastSlashIdx (url : List Char) : Nat :=
  url.length - 1 - ((url.reverse.findIdx? (· == '/')).getD 0)

/-- `urllib.parse._splitparams`.  Only reached when `';'` occurs in the
path, in which case the `find` calls below cannot both miss: split at the
first `';'` that follows the last `'/'` (or at the first `';'` when there
is no `'/'`). -/
def _splitparams (url : List Char) : List Char × List Char :=
  if '/' ∈ url then
    match (url.drop (lastSlashIdx url)).findIdx? (· == ';') with
    | none => (url, [])
    | some k => (url.take (lastSlashIdx url + k), url.drop (lastSlashIdx url + k + 1))
  else
    match url.findIdx? (· == ';') with
    | none => (url, [])
    | some k => (url.take k, url.drop (k + 1))

/-- `urllib.parse.urlparse`: split, then separate the params from the
path when the scheme uses params and the path contains `';'`. -/
def urlparse (url : List Char) : ParseResult :=
  let s := urlsplit url
  let pp :=
    if s.scheme ∈ uses_params ∧ ';' ∈ s.path then _splitparams s.path
    else (s.path, [])
  ⟨s.scheme, s.netloc, pp.1, pp.2, s.query, s.fragment⟩

/-- The first reassignment of `urlunsplit`:
`if netloc or (scheme and scheme in uses_netloc and url[:2] != '//'):
if url and url[:1] != '/': url = '/' + url; url = '//' + (netloc or '') + url`. -/
def addNetloc (scheme netloc url : List Char) : List Char :=
  if netloc ≠ [] ∨ (scheme ≠ [] ∧ scheme ∈ uses_netloc ∧ url.take 2 ≠ ['/', '/'])
  then '/' :: '/' :: (netloc ++ (if url ≠ [] ∧ url.take 1 ≠ ['/'] then '/' :: url else url))
  else url

/-- `if scheme: url = scheme + ':' + url`. -/
def addScheme (scheme url : List Char) : List Char :=
  if scheme ≠ [] then scheme ++ ':' :: url else url

/-- `if query: url = url + '?' + query`. -/
def addQuery (url query : List Char) : List Char :=
  if query ≠ [] then url ++ '?' :: query else url

/-- `if fragment: url = url + '#' + fragment`. -/
def addFragment (url fragment : List Char) : List Char :=
  if fragment ≠ [] then url ++ '#' :: fragment else url

/-- `urllib.parse.urlunsplit`, CPython 3.11 (including the
`scheme in uses_netloc` clause that re-introduces `'//'` for an empty
netloc): the four sequential reassignments of `url`. -/
def urlunsplit (scheme netloc url query fragment : List Char) : List Char :=
  addFragment (addQuery (addScheme scheme (addNetloc scheme netloc url)) query) fragment

/-- `if params: url = "%s;%s" % (url, params)` (from `urlunparse`). -/
def addParams (path params : List Char) : List Char :=
  if params ≠ [] then path ++ ';' :: params else path

/-- `urllib.parse.urlunparse`: re-attach the params, then `urlunsplit`. -/
def urlunparse (p : ParseResult) : List Char :=
  urlunsplit p.scheme p.netloc (addParams p.path p.params) p.query p.fragment

/-! ## `chattool.request` URL helpers -/

/-- The backslash-to-slash preprocessing of `normalize_url`
(`url.replace("\\", '/')`, line 37). -/
def backslashToSlash (c : Char) : Char := if c = '\\' then '/' else c

/-- `if not parsed_url.scheme: parsed_url = parsed_url._replace(scheme="https")`
(lines 39-41). -/
def defaultHttps (p : ParseResult) : ParseResult :=
  if p.scheme = [] then { p with scheme := "https".toList } else p

/-- Lines 37-41 of `request.py`: replace backslashes, parse, default a
missing scheme to `https`, and reassemble — everything of `normalize_url`
except the final `.replace("///", "//")`. -/
def reassemble_core (url : List Char) : List Char :=
  urlunparse (defaultHttps (urlparse (url.map backslashToSlash)))

/-- `normalize_url` on `List Char`. -/
def normalize_url_core (url : List Char) : List Char :=
  replace3 (reassemble_core url)

/-- `chattool.request.normalize_url`. -/
def normalize_url (url : String) : String := ⟨normalize_url_core url.toList⟩

/-- `chattool.request.is_valid_url`: `all([parsed.scheme, parsed.netloc])`
— both the scheme and the netloc of the parse are nonempty (truthy). -/
def is_valid_url (url : String) : Bool :=
  let p := urlparse url.toList
  p.scheme ≠ [] && p.netloc ≠ []

/-! ## JSON values, Python dict semantics, errors -/

/-- A structured JSON value, the currency of the external JSON codec. -/
inductive Json where
  | null
  | bool (b : Bool)
  | num (n : Int)
  | str (s : String)
  | arr (elems : List Json)
  | obj (fields : List (String × Json))

/-- Errors raised by the embedded functions: `exception detail` models
`raise Exception(response.text)`, `typeError` models the `TypeError`
raised by `"gpt" in None`. -/
inductive PyErr where
  | exception (detail : String)
  | typeError
deriving DecidableEq

/-- `d[k] = v` on a Python dict kept as an insertion-ordered association
list: an existing key keeps its position and gets the new value, a new
key is appended. -/
def dictSet (d : List (String × Json)) (k : String) (v : Json) : List (String × Json) :=
  if d.any (fun p => p.1 == k) then d.map (fun p => if p.1 == k then (k, v) else p)
  else d ++ [(k, v)]

/-- `d.get(k)` / `d[k]` lookup on a Python dict. -/
def dictGet? (d : List (String × Json)) (k : String) : Option Json :=
  (d.find? (fun p => p.1 == k)).map Prod.snd

/-- The dict literal `{"model": model, "messages": messages, **options}`
of `chat_completion` (lines 64-68): insert `model`, then `messages`, then
the keyword options in order. -/
def chat_payload (model : String) (messages : List Json)
    (options : List (String × Json)) : List (String × Json) :=
  options.foldl (fun d kv => dictSet d kv.1 kv.2)
    [("model", Json.str model), ("messages", Json.arr messages)]

/-! ## HTTP requests and responses

The HTTP transport is the external collaborator: it is a parameter of
type `HttpRequest → HttpResponse`.  `payload` stands for the body that
`json.dumps` serializes; `jsonBody` stands for what `response.json()`
parses out of the body. -/

structure HttpRequest where
  method : String
  url : String
  headers : List (String × String)
  payload : List (String × Json)
  timeout : Option Int

structure HttpResponse where
  status_code : Nat
  text : String
  jsonBody : Json

/-- The request that `chat_completion` sends: the payload dict, the two
headers, the normalized URL and the timeout (`if timeout <= 0: timeout =
None`, lines 76-79). -/
def chat_completion_request (api_key chat_url : String) (messages : List Json)
    (model : String) (timeout : Int) (options : List (String × Json)) : HttpRequest :=
  { method := "POST"
  , url := normalize_url chat_url
  , headers := [("Content-Type", "application/json"),
                ("Authorization", "Bearer " ++ api_key)]
  , payload := chat_payload model messages options
  , timeout := if timeout ≤ 0 then none else some timeout }

/-- `chattool.request.chat_completion`: send the request through the
transport; a non-200 status raises `Exception(response.text)`, otherwise
the parsed JSON body is returned (lines 80-82). -/
def chat_completion (api_key chat_url : String) (messages : List Json)
    (model : String) (timeout : Int) (options : List (String × Json))
    (transport : HttpRequest → HttpResponse) : Except PyErr Json :=
  let response := transport (chat_completion_request api_key chat_url messages model timeout options)
  if response.status_code ≠ 200 then Except.error (PyErr.exception response.text)
  else Except.ok response.jsonBody

/-- POSIX `os.path.join(a, b)` for the two-argument call of
`valid_models` (the second component there is the relative path
`"v1/models"`). -/
def os_path_join (a b : String) : String :=
  if b.toList.take 1 = ['/'] then b
  else if a = "" ∨ a.toList.getLast? = some '/' then a ++ b
  else a ++ "/" ++ b

/-- `model.get("id")` on a JSON object; on anything that is not an
object there is no `id` entry (in Python a non-mapping entry would raise
`AttributeError`; the claims only concern mapping entries). -/
def jsonGet? (j : Json) (k : String) : Option Json :=
  match j with
  | Json.obj fields => (fields.find? (fun p => p.1 == k)).map Prod.snd
  | _ => none

/-- `"gpt" in s` on strings: contiguous-substring test. -/
def pyStrContains (needle hay : List Char) : Bool :=
  match hay with
  | [] => needle.isEmpty
  | c :: rest => needle.isPrefixOf (c :: rest) || pyStrContains needle rest

/-- The filtering comprehension
`[model for model in model_list if "gpt" in model]` (line 105): `"gpt" in
model` succeeds only on a string value; on `None` (a missing `id`) — or
any other non-string — it raises `TypeError`, which aborts the whole
comprehension. -/
def gpt_filter : List (Option Json) → Except PyErr (List (Option Json))
  | [] => Except.ok []
  | some (Json.str s) :: rest =>
    match gpt_filter rest with
    | Except.ok tail =>
      Except.ok (if pyStrContains "gpt".toList s.toList
                 then some (Json.str s) :: tail else tail)
    | Except.error e => Except.error e
  | _ :: _ => Except.error PyErr.typeError

/-- Lines 104-105 of `valid_models`, given the `data` list of the parsed
body: `model_list = [model.get("id") for model in data.get("data")]`,
then either the `gpt` filter or the raw list. -/
def valid_models_models (entries : List Json) (gpt_only : Bool) :
    Except PyErr (List (Option Json)) :=
  let model_list := entries.map (fun m => jsonGet? m "id")
  if gpt_only then gpt_filter model_list else Except.ok model_list

/-- The GET request that `valid_models` sends (no body, no timeout). -/
def valid_models_request (api_key base_url : String) : HttpRequest :=
  { method := "GET"
  , url := normalize_url (os_path_join base_url "v1/models")
  , headers := [("Authorization", "Bearer " ++ api_key),
                ("Content-Type", "application/json")]
  , payload := []
  , timeout := none }

/-- `chattool.request.valid_models`: on status 200, extract the `data`
list of the parsed body and map/filter the `id` fields; iterating a
missing or non-list `data` raises `TypeError`; any other status raises
`Exception(response.text)` (lines 102-107). -/
def valid_models (api_key base_url : String) (gpt_only : Bool)
    (transport : HttpRequest → HttpResponse) : Except PyErr (List (Option Json)) :=
  let response := transport (valid_models_request api_key base_url)
  if response.status_code = 200 then
    match jsonGet? response.jsonBody "data" with
    | some (Json.arr entries) => valid_models_models entries gpt_only
    | _ => Except.error PyErr.typeError
  else Except.error (PyErr.exception response.text)

/-- The test `"gpt" in model` of the filtering comprehension, as a
boolean on well-typed values (`false` on the values that make the
comprehension raise). -/
def gptTest (v : Option Json) : Bool :=
  match v with
  | some (Json.str s) => pyStrContains "gpt".toList s.toList
  | _ => false

/-! ## Helper lemmas: backslash replacement -/

theorem backslashToSlash_ne_backslash (c : Char) : backslashToSlash c ≠ '\\' := by
  unfold backslashToSlash
  split
  · decide
  · assumption

theorem not_backslash_mem_map (l : List Char) : '\\' ∉ l.map backslashToSlash := by
  intro h
  rcases List.mem_map.mp h with ⟨d, _, hd⟩
  exact backslashToSlash_ne_backslash d hd

theorem map_backslashToSlash_idem (l : List Char) :
    (l.map backslashToSlash).map backslashToSlash = l.map backslashToSlash := by
  rw [List.map_map]
  refine List.map_congr_left ?_
  intro c _
  show backslashToSlash (backslashToSlash c) = backslashToSlash c
  unfold backslashToSlash
  split <;> simp_all

theorem map_backslashToSlash_eq_self {l : List Char} (h : '\\' ∉ l) :
    l.map backslashToSlash = l := by
  induction l with
  | nil => rfl
  | cons c rest ih =>
    simp only [List.mem_cons, not_or] at h
    simp only [List.map_cons, ih h.2, List.cons.injEq, and_true]
    unfold backslashToSlash
    split
    · exact absurd (by assumption) (Ne.symm h.1)
    · rfl

/-! ## Helper lemmas: `replace3` -/

theorem mem_replace3 {c : Char} {l : List Char} (h : c ∈ replace3 l) : c ∈ l := by
  induction l using replace3.induct with
  | case1 rest ih =>
    simp only [replace3, List.mem_cons] at h ⊢
    rcases h with h | h | h
    · exact Or.inl h
    · exact Or.inl h
    · exact Or.inr (Or.inr (Or.inr (ih h)))
  | case2 c' rest hne ih =>
    simp only [replace3, List.mem_cons] at h ⊢
    rcases h with h | h
    · exact Or.inl h
    · exact Or.inr (ih h)
  | case3 => simp [replace3] at h

theorem replace3_eq_self {l : List Char} (h : hasRun3 l = false) : replace3 l = l := by
  induction l using replace3.induct with
  | case1 rest ih => simp [hasRun3] at h
  | case2 c' rest hne ih =>
    simp only [hasRun3, Bool.or_eq_false_iff] at h
    simp only [replace3, List.cons.injEq, true_and]
    exact ih h.2
  | case3 => rfl

theorem replace3_take1 (l : List Char) : (replace3 l).take 1 = l.take 1 := by
  induction l using replace3.induct with
  | case1 rest ih => rfl
  | case2 c' rest hne ih => simp [replace3]
  | case3 => rfl

theorem replace3_cons1 {c : Char} {rest : List Char}
    (h : ¬(c = '/' ∧ rest.take 2 = ['/', '/'])) :
    replace3 (c :: rest) = c :: replace3 rest := by
  cases rest with
  | nil => simp [replace3]
  | cons b r2 =>
    cases r2 with
    | nil => simp [replace3]
    | cons d r3 =>
      by_cases hc : c = '/'
      · by_cases hb : b = '/'
        · by_cases hd : d = '/'
          · exact absurd ⟨hc, by simp [hb, hd]⟩ h
          · subst hc hb; simp [replace3, hd]
        · subst hc; simp [replace3, hb]
      · simp [replace3, hc]

theorem replace3_take2 {l : List Char} (h : l.take 2 ≠ ['/', '/']) :
    (replace3 l).take 2 = l.take 2 := by
  cases l with
  | nil => rfl
  | cons a r =>
    rw [replace3_cons1 (by
      intro hx
      apply h
      simp [hx.1]
      cases r with
      | nil => simp at hx
      | cons b r2 =>
        simp at hx ⊢
        exact hx.2.1)]
    simp [List.take_cons, replace3_take1]

theorem hasRun3_replace3 {l : List Char} (h : hasRun4 l = false) :
    hasRun3 (replace3 l) = false := by
  induction l using replace3.induct with
  | case1 rest ih =>
    simp only [replace3]
    simp [hasRun4] at h
    simp [hasRun3, replace3_take1]
    refine ⟨h.1, ?_, ih h.2.2.2⟩
    rw [replace3_take2 h.2.1]
    exact h.2.1
  | case2 c' rest hne ih =>
    simp [hasRun4] at h
    by_cases hc : c' = '/'
    · subst hc
      have h2 : rest.take 2 ≠ ['/', '/'] := by
        intro ht
        have hr : rest = '/' :: '/' :: rest.drop 2 := by
          conv_lhs => rw [← List.take_append_drop 2 rest]
          rw [ht]
          rfl
        exact hne _ rfl hr
      rw [replace3_cons1 (by intro hx; exact h2 hx.2)]
      simp [hasRun3, ih h.2]
      rw [replace3_take2 h2]
      exact h2
    · rw [replace3_cons1 (by intro hx; exact hc hx.1)]
      simp [hasRun3, hc, ih h.2]
  | case3 => rfl

/-! ## Helper lemmas: characters of the parse and unparse results -/

theorem mem_of_mem_takeWhile {p : Char → Bool} {l : List Char} {a : Char}
    (h : a ∈ l.takeWhile p) : a ∈ l := by
  induction l with
  | nil => simp at h
  | cons c rest ih =>
    rw [List.takeWhile_cons] at h
    split at h
    · rcases List.mem_cons.mp h with h | h
      · exact List.mem_cons.mpr (Or.inl h)
      · exact List.mem_cons.mpr (Or.inr (ih h))
    · simp at h

theorem mem_of_mem_dropWhile {p : Char → Bool} {l : List Char} {a : Char}
    (h : a ∈ l.dropWhile p) : a ∈ l := by
  induction l with
  | nil => simp at h
  | cons c rest ih =>
    rw [List.dropWhile_cons] at h
    split at h
    · exact List.mem_cons.mpr (Or.inr (ih h))
    · exact h

theorem mem_splitOnFirst_fst {sep c : Char} {l : List Char}
    (h : c ∈ (splitOnFirst sep l).1) : c ∈ l :=
  mem_of_mem_takeWhile h

theorem mem_splitOnFirst_snd {sep c : Char} {l : List Char}
    (h : c ∈ (splitOnFirst sep l).2) : c ∈ l :=
  mem_of_mem_dropWhile (List.mem_of_mem_drop h)

theorem mem_splitScheme_fst {c : Char} {l : List Char} (h : c ∈ (splitScheme l).1) :
    c ∈ scheme_chars.map pyLowerChar := by
  unfold splitScheme at h
  split at h
  · split at h
    · rename_i hcond
      rcases List.mem_map.mp h with ⟨d, hd, rfl⟩
      have hall := List.all_eq_true.mp hcond.2.2 d hd
      refine List.mem_map.mpr ⟨d, ?_, rfl⟩
      simpa using hall
    · simp at h
  · simp at h

theorem mem_splitScheme_snd {c : Char} {l : List Char} (h : c ∈ (splitScheme l).2) :
    c ∈ l := by
  unfold splitScheme at h
  split at h
  · split at h
    · exact List.mem_of_mem_drop h
    · exact h
  · exact h

theorem mem_splitnetloc_fst {c : Char} {l : List Char} (h : c ∈ (_splitnetloc l).1) :
    c ∈ l :=
  List.mem_of_mem_drop (mem_of_mem_takeWhile h)

theorem mem_splitnetloc_snd {c : Char} {l : List Char} (h : c ∈ (_splitnetloc l).2) :
    c ∈ l :=
  List.mem_of_mem_drop (mem_of_mem_dropWhile h)

theorem mem_splitparams_fst {c : Char} {l : List Char} (h : c ∈ (_splitparams l).1) :
    c ∈ l := by
  unfold _splitparams at h
  split at h
  · split at h
    · exact h
    · exact List.mem_of_mem_take h
  · split at h
    · exact h
    · exact List.mem_of_mem_take h

theorem mem_splitparams_snd {c : Char} {l : List Char} (h : c ∈ (_splitparams l).2) :
    c ∈ l := by
  unfold _splitparams at h
  split at h
  · split at h
    · simp at h
    · exact List.mem_of_mem_drop h
  · split at h
    · simp at h
    · exact List.mem_of_mem_drop h

theorem mem_urlsplit_input {c : Char} {l : List Char}
    (h : c ∈ (l.dropWhile isC0OrSpace).filter (fun c => !isUnsafeByte c)) : c ∈ l :=
  mem_of_mem_dropWhile (List.mem_of_mem_filter h)

theorem mem_urlsplit_scheme {c : Char} {l : List Char} (h : c ∈ (urlsplit l).scheme) :
    c ∈ scheme_chars.map pyLowerChar := by
  simp only [urlsplit] at h
  exact mem_splitScheme_fst h

theorem mem_urlsplit_netloc {c : Char} {l : List Char} (h : c ∈ (urlsplit l).netloc) :
    c ∈ l := by
  simp only [urlsplit] at h
  split at h
  · exact mem_urlsplit_input (mem_splitScheme_snd (mem_splitnetloc_fst h))
  · simp at h

theorem mem_urlsplit_rest {c : Char} {l : List Char}
    (h : c ∈ (if (splitScheme ((l.dropWhile isC0OrSpace).filter (fun c => !isUnsafeByte c))).2.take 2 = ['/', '/']
        then _splitnetloc (splitScheme ((l.dropWhile isC0OrSpace).filter (fun c => !isUnsafeByte c))).2
        else ([], (splitScheme ((l.dropWhile isC0OrSpace).filter (fun c => !isUnsafeByte c))).2)).2) :
    c ∈ l := by
  split at h
  · exact mem_urlsplit_input (mem_splitScheme_snd (mem_splitnetloc_snd h))
  · exact mem_urlsplit_input (mem_splitScheme_snd h)

theorem mem_urlsplit_path {c : Char} {l : List Char} (h : c ∈ (urlsplit l).path) :
    c ∈ l := by
  simp only [urlsplit] at h
  exact mem_urlsplit_rest (mem_splitOnFirst_fst (mem_splitOnFirst_fst h))

theorem mem_urlsplit_query {c : Char} {l : List Char} (h : c ∈ (urlsplit l).query) :
    c ∈ l := by
  simp only [urlsplit] at h
  exact mem_urlsplit_rest (mem_splitOnFirst_fst (mem_splitOnFirst_snd h))

theorem mem_urlsplit_fragment {c : Char} {l : List Char} (h : c ∈ (urlsplit l).fragment) :
    c ∈ l := by
  simp only [urlsplit] at h
  exact mem_urlsplit_rest (mem_splitOnFirst_snd h)

theorem mem_urlparse_scheme {c : Char} {l : List Char} (h : c ∈ (urlparse l).scheme) :
    c ∈ scheme_chars.map pyLowerChar := by
  simp only [urlparse] at h
  exact mem_urlsplit_scheme h

theorem mem_urlparse_netloc {c : Char} {l : List Char} (h : c ∈ (urlparse l).netloc) :
    c ∈ l := by
  simp only [urlparse] at h
  exact mem_urlsplit_netloc h

theorem mem_urlparse_path {c : Char} {l : List Char} (h : c ∈ (urlparse l).path) :
    c ∈ l := by
  simp only [urlparse] at h
  split at h
  · exact mem_urlsplit_path (mem_splitparams_fst h)
  · exact mem_urlsplit_path h

theorem mem_urlparse_params {c : Char} {l : List Char} (h : c ∈ (urlparse l).params) :
    c ∈ l := by
  simp only [urlparse] at h
  split at h
  · exact mem_urlsplit_path (mem_splitparams_snd h)
  · simp at h

theorem mem_urlparse_query {c : Char} {l : List Char} (h : c ∈ (urlparse l).query) :
    c ∈ l := by
  simp only [urlparse] at h
  exact mem_urlsplit_query h

theorem mem_urlparse_fragment {c : Char} {l : List Char} (h : c ∈ (urlparse l).fragment) :
    c ∈ l := by
  simp only [urlparse] at h
  exact mem_urlsplit_fragment h

theorem mem_addNetloc {c : Char} {s n u : List Char} (h : c ∈ addNetloc s n u) :
    c ∈ n ∨ c ∈ u ∨ c = '/' := by
  unfold addNetloc at h
  split at h
  · simp only [List.mem_cons, List.mem_append] at h
    rcases h with rfl | rfl | h | h
    · tauto
    · tauto
    · tauto
    · split at h
      · rcases List.mem_cons.mp h with rfl | h <;> tauto
      · tauto
  · tauto

theorem mem_addScheme {c : Char} {s u : List Char} (h : c ∈ addScheme s u) :
    c ∈ s ∨ c ∈ u ∨ c = ':' := by
  unfold addScheme at h
  split at h
  · simp only [List.mem_append, List.mem_cons] at h
    tauto
  · tauto

theorem mem_addQuery {c : Char} {u q : List Char} (h : c ∈ addQuery u q) :
    c ∈ u ∨ c ∈ q ∨ c = '?' := by
  unfold addQuery at h
  split at h
  · simp only [List.mem_append, List.mem_cons] at h
    tauto
  · tauto

theorem mem_addFragment {c : Char} {u f : List Char} (h : c ∈ addFragment u f) :
    c ∈ u ∨ c ∈ f ∨ c = '#' := by
  unfold addFragment at h
  split at h
  · simp only [List.mem_append, List.mem_cons] at h
    tauto
  · tauto

theorem mem_addParams {c : Char} {u pr : List Char} (h : c ∈ addParams u pr) :
    c ∈ u ∨ c ∈ pr ∨ c = ';' := by
  unfold addParams at h
  split at h
  · simp only [List.mem_append, List.mem_cons] at h
    tauto
  · tauto

theorem mem_urlunparse {c : Char} {p : ParseResult} (h : c ∈ urlunparse p) :
    c ∈ p.scheme ∨ c ∈ p.netloc ∨ c ∈ p.path ∨ c ∈ p.params ∨ c ∈ p.query ∨
      c ∈ p.fragment ∨ c = ':' ∨ c = '/' ∨ c = '?' ∨ c = '#' ∨ c = ';' := by
  unfold urlunparse urlunsplit at h
  rcases mem_addFragment h with h | h | h
  · rcases mem_addQuery h with h | h | h
    · rcases mem_addScheme h with h | h | h
      · tauto
      · rcases mem_addNetloc h with h | h | h
        · tauto
        · rcases mem_addParams h with h | h | h <;> tauto
        · tauto
      · tauto
    · tauto
    · tauto
  · tauto
  · tauto

/-- The output of `normalize_url` never contains a backslash: the
preprocessing replaces them all, and parsing plus reassembly only keeps
input characters, lowercased scheme characters and URL punctuation. -/
theorem backslash_not_mem_normalize_core (l : List Char) :
    '\\' ∉ normalize_url_core l := by
  intro h
  have h1 : '\\' ∈ reassemble_core l := mem_replace3 h
  simp only [reassemble_core, defaultHttps] at h1
  rcases mem_urlunparse h1 with hx | hx | hx | hx | hx | hx | hx | hx | hx | hx | hx
  · -- scheme: either the default `https` or lowercased `scheme_chars`
    split at hx
    · simp at hx
    · exact absurd (mem_urlparse_scheme (by simpa using hx)) (by decide)
  · split at hx <;>
      exact not_backslash_mem_map l (mem_urlparse_netloc (by simpa using hx))
  · split at hx <;>
      exact not_backslash_mem_map l (mem_urlparse_path (by simpa using hx))
  · split at hx <;>
      exact not_backslash_mem_map l (mem_urlparse_params (by simpa using hx))
  · split at hx <;>
      exact not_backslash_mem_map l (mem_urlparse_query (by simpa using hx))
  · split at hx <;>
      exact not_backslash_mem_map l (mem_urlparse_fragment (by simpa using hx))
  all_goals simp at hx

/-! ## Helper lemmas: Python dict construction -/

theorem keys_map_update (d : List (String × Json)) (k : String) (v : Json) :
    (d.map (fun p => if p.1 == k then (k, v) else p)).map Prod.fst = d.map Prod.fst := by
  induction d with
  | nil => rfl
  | cons p rest ih =>
    simp only [List.map_cons, ih, List.cons.injEq, and_true]
    split
    · rename_i hp
      exact (beq_iff_eq.mp hp).symm
    · rfl

theorem any_key_iff (d : List (String × Json)) (k : String) :
    d.any (fun p => p.1 == k) = true ↔ k ∈ d.map Prod.fst := by
  rw [List.any_eq_true]
  constructor
  · rintro ⟨p, hp, hk⟩
    exact List.mem_map.mpr ⟨p, hp, beq_iff_eq.mp hk⟩
  · rintro h
    rcases List.mem_map.mp h with ⟨p, hp, hk⟩
    exact ⟨p, hp, beq_iff_eq.mpr hk⟩

theorem mem_keys_dictSet (d : List (String × Json)) (k : String) (v : Json) (k' : String) :
    k' ∈ (dictSet d k v).map Prod.fst ↔ k' ∈ d.map Prod.fst ∨ k' = k := by
  unfold dictSet
  split
  · rename_i hany
    rw [keys_map_update]
    constructor
    · exact Or.inl
    · rintro (h | rfl)
      · exact h
      · exact (any_key_iff d k').mp hany
  · simp

theorem find?_map_update {d : List (String × Json)} {k : String} (v : Json)
    (hany : d.any (fun p => p.1 == k) = true) :
    (d.map (fun p => if p.1 == k then (k, v) else p)).find? (fun p => p.1 == k) =
      some (k, v) := by
  induction d with
  | nil => simp at hany
  | cons p rest ih =>
    simp only [List.map_cons]
    by_cases hp : (p.1 == k) = true
    · rw [if_pos hp]
      exact List.find?_cons_of_pos _ (by simp)
    · rw [if_neg hp]
      rw [List.find?_cons_of_neg _ (by simpa using hp)]
      apply ih
      simpa [hp] using hany

theorem dictGet?_dictSet_self (d : List (String × Json)) (k : String) (v : Json) :
    dictGet? (dictSet d k v) k = some v := by
  unfold dictSet
  split
  · rename_i hany
    unfold dictGet?
    rw [find?_map_update v hany]
    rfl
  · rename_i hany
    unfold dictGet?
    rw [List.find?_append]
    have hnone : d.find? (fun p => p.1 == k) = none := by
      rw [List.find?_eq_none]
      intro x hx hk
      exact hany (List.any_eq_true.mpr ⟨x, hx, hk⟩)
    simp [hnone]

theorem find?_map_update_ne {d : List (String × Json)} {k k' : String} (v : Json)
    (h : k' ≠ k) :
    (d.map (fun p => if p.1 == k then (k, v) else p)).find? (fun p => p.1 == k') =
      d.find? (fun p => p.1 == k') := by
  induction d with
  | nil => rfl
  | cons p rest ih =>
    simp only [List.map_cons]
    by_cases hp : (p.1 == k) = true
    · rw [if_pos hp]
      rw [List.find?_cons_of_neg _ (by simpa using fun hx => h hx.symm)]
      rw [List.find?_cons_of_neg _ (by
        simp only [beq_iff_eq] at hp ⊢
        rw [hp]
        exact fun hx => h hx.symm)]
      exact ih
    · rw [if_neg hp]
      by_cases hp' : (p.1 == k') = true
      · simp [hp']
      · have e1 : List.find? (fun q => q.1 == k')
            (p :: List.map (fun q => if q.1 == k then (k, v) else q) rest) =
            List.find? (fun q => q.1 == k')
              (List.map (fun q => if q.1 == k then (k, v) else q) rest) :=
          List.find?_cons_of_neg _ hp'
        have e2 : List.find? (fun q => q.1 == k') (p :: rest) =
            List.find? (fun q => q.1 == k') rest :=
          List.find?_cons_of_neg _ hp'
        rw [e1, e2, ih]

theorem dictGet?_dictSet_ne (d : List (String × Json)) (k : String) (v : Json)
    (k' : String) (h : k' ≠ k) :
    dictGet? (dictSet d k v) k' = dictGet? d k' := by
  unfold dictSet
  split
  · unfold dictGet?
    rw [find?_map_update_ne v h]
  · unfold dictGet?
    rw [List.find?_append]
    have hone : List.find? (fun p => p.1 == k') [(k, v)] = none := by
      rw [List.find?_eq_none]
      intro x hx hk
      simp only [List.mem_singleton] at hx
      subst hx
      exact h (beq_iff_eq.mp hk).symm
    simp [hone]

theorem foldl_dictSet_get_not_mem (opts : List (String × Json))
    (d : List (String × Json)) (k : String) (h : k ∉ opts.map Prod.fst) :
    dictGet? (opts.foldl (fun d kv => dictSet d kv.1 kv.2) d) k = dictGet? d k := by
  induction opts generalizing d with
  | nil => rfl
  | cons kv rest ih =>
    simp only [List.map_cons, List.mem_cons, not_or] at h
    rw [List.foldl_cons, ih _ h.2, dictGet?_dictSet_ne _ _ _ _ h.1]

theorem foldl_dictSet_get_mem (opts : List (String × Json))
    (d : List (String × Json)) (k : String) (v : Json)
    (hnd : (opts.map Prod.fst).Nodup) (h : (k, v) ∈ opts) :
    dictGet? (opts.foldl (fun d kv => dictSet d kv.1 kv.2) d) k = some v := by
  induction opts generalizing d with
  | nil => simp at h
  | cons kv rest ih =>
    rcases List.mem_cons.mp h with rfl | hmem
    · rw [List.foldl_cons,
        foldl_dictSet_get_not_mem _ _ _ (by simpa using (List.nodup_cons.mp hnd).1),
        dictGet?_dictSet_self]
    · exact ih _ ((List.nodup_cons.mp hnd).2) hmem

theorem mem_keys_foldl_dictSet (opts : List (String × Json))
    (d : List (String × Json)) (k : String) :
    k ∈ (opts.foldl (fun d kv => dictSet d kv.1 kv.2) d).map Prod.fst ↔
      k ∈ d.map Prod.fst ∨ k ∈ opts.map Prod.fst := by
  induction opts generalizing d with
  | nil => simp
  | cons kv rest ih =>
    rw [List.foldl_cons, ih, mem_keys_dictSet]
    simp only [List.map_cons, List.mem_cons]
    tauto

/-! ## Helper lemmas: the `gpt` filter -/

theorem gpt_filter_error_of_none {l : List (Option Json)} (h : none ∈ l) :
    gpt_filter l = Except.error PyErr.typeError := by
  induction l with
  | nil => simp at h
  | cons v rest ih =>
    cases v with
    | none => rfl
    | some j =>
      cases j with
      | str s =>
        have hrest : none ∈ rest := by
          rcases List.mem_cons.mp h with h1 | h1
          · exact absurd h1 (by simp)
          · exact h1
        simp only [gpt_filter, ih hrest]
      | null => rfl
      | bool b => rfl
      | num n => rfl
      | arr elems => rfl
      | obj fields => rfl

theorem gpt_filter_ok {l : List (Option Json)}
    (h : ∀ v ∈ l, ∃ s, v = some (Json.str s)) :
    gpt_filter l = Except.ok (l.filter gptTest) := by
  induction l with
  | nil => rfl
  | cons v rest ih =>
    rcases h v (List.mem_cons_self v rest) with ⟨s, rfl⟩
    have ihr := ih (fun w hw => h w (List.mem_cons_of_mem _ hw))
    simp only [gpt_filter, ihr, List.filter_cons]
    split
    · rename_i hg
      rw [if_pos (by simpa [gptTest] using hg)]
    · rename_i hg
      rw [if_neg (by simpa [gptTest] using hg)]

/-! ## The claims -/

/-- C2: `normalize_url` defaults a missing scheme to `https` and leaves a
scheme-qualified URL unchanged: `normalize_url "api.example.com"` is
`"https://api.example.com"` and `normalize_url "http://api.example.com"`
is `"http://api.example.com"`. -/
theorem claim_C2_normalize_defaults :
    normalize_url "api.example.com" = "https://api.example.com" ∧
    normalize_url "http://api.example.com" = "http://api.example.com" := by
  constructor <;> decide

/-- C7: `is_valid_url` is a pure predicate returning `true` exactly when
the parse of the URL has both a nonempty scheme and a nonempty netloc;
in particular it accepts `"http://api.example.com"` and rejects
`"api.example.com"` and `"not a url"`. -/
theorem claim_C7_is_valid_url :
    (∀ url : String, is_valid_url url = true ↔
      ((urlparse url.toList).scheme ≠ [] ∧ (urlparse url.toList).netloc ≠ [])) ∧
    is_valid_url "http://api.example.com" = true ∧
    is_valid_url "api.example.com" = false ∧
    is_valid_url "not a url" = false := by
  refine ⟨?_, by decide, by decide, by decide⟩
  intro url
  unfold is_valid_url
  simp

/-- C6: `chat_completion` passes the transport no timeout when the given
timeout is `≤ 0` (wait indefinitely), and passes a positive timeout
through unchanged. -/
theorem claim_C6_timeout (api_key chat_url : String) (messages : List Json)
    (model : String) (timeout : Int) (options : List (String × Json)) :
    (timeout ≤ 0 →
      (chat_completion_request api_key chat_url messages model timeout options).timeout = none) ∧
    (0 < timeout →
      (chat_completion_request api_key chat_url messages model timeout options).timeout =
        some timeout) := by
  unfold chat_completion_request
  constructor
  · intro h
    simp [h]
  · intro h
    simp [not_le.mpr h]

/-- C6 witness: timeout `0` becomes "no timeout", timeout `30` is passed
unchanged. -/
theorem claim_C6_timeout_witness :
    (chat_completion_request "k" "u" [] "m" 0 []).timeout = none ∧
    (chat_completion_request "k" "u" [] "m" 30 []).timeout = some 30 :=
  ⟨(claim_C6_timeout "k" "u" [] "m" 0 []).1 (by decide),
   (claim_C6_timeout "k" "u" [] "m" 30 []).2 (by decide)⟩

/-- C3: `chat_completion` returns the parsed JSON body exactly when the
response status is 200; every non-200 status makes `chat_completion` and
`valid_models` raise an exception whose detail is the raw response body
text, and no other result is produced. -/
theorem claim_C3_status_handling (api_key chat_url base_url model : String)
    (messages : List Json) (timeout : Int) (options : List (String × Json))
    (gpt_only : Bool) (transport : HttpRequest → HttpResponse) :
    ((transport (chat_completion_request api_key chat_url messages model timeout options)).status_code = 200 →
      chat_completion api_key chat_url messages model timeout options transport =
        Except.ok (transport (chat_completion_request api_key chat_url messages model timeout options)).jsonBody) ∧
    ((transport (chat_completion_request api_key chat_url messages model timeout options)).status_code ≠ 200 →
      chat_completion api_key chat_url messages model timeout options transport =
        Except.error (PyErr.exception
          (transport (chat_completion_request api_key chat_url messages model timeout options)).text)) ∧
    ((∃ j, chat_completion api_key chat_url messages model timeout options transport = Except.ok j) ↔
      (transport (chat_completion_request api_key chat_url messages model timeout options)).status_code = 200) ∧
    ((transport (valid_models_request api_key base_url)).status_code ≠ 200 →
      valid_models api_key base_url gpt_only transport =
        Except.error (PyErr.exception (transport (valid_models_request api_key base_url)).text)) := by
  refine ⟨fun h => ?_, fun h => ?_, ⟨?_, fun h => ?_⟩, fun h => ?_⟩
  · simp only [chat_completion]
    rw [if_neg (by simp [h])]
  · simp only [chat_completion]
    rw [if_pos h]
  · rintro ⟨j, hj⟩
    by_contra hne
    simp only [chat_completion] at hj
    rw [if_pos hne] at hj
    exact Except.noConfusion hj
  · refine ⟨(transport (chat_completion_request api_key chat_url messages model timeout options)).jsonBody, ?_⟩
    simp only [chat_completion]
    rw [if_neg (by simp [h])]
  · simp only [valid_models]
    rw [if_neg h]

/-- C3 witness: a 200 response yields its parsed body, a 400 response
with body text `"bad request"` raises an exception carrying exactly that
text, for both operations. -/
theorem claim_C3_status_handling_witness :
    chat_completion "k" "u" [] "m" 0 []
        (fun _ => { status_code := 200, text := "", jsonBody := Json.str "x" }) =
      Except.ok (Json.str "x") ∧
    chat_completion "k" "u" [] "m" 0 []
        (fun _ => { status_code := 400, text := "bad request", jsonBody := Json.null }) =
      Except.error (PyErr.exception "bad request") ∧
    valid_models "k" "b" true
        (fun _ => { status_code := 400, text := "bad request", jsonBody := Json.null }) =
      Except.error (PyErr.exception "bad request") :=
  ⟨(claim_C3_status_handling "k" "u" "b" "m" [] 0 [] true
      (fun _ => { status_code := 200, text := "", jsonBody := Json.str "x" })).1 rfl,
   (claim_C3_status_handling "k" "u" "b" "m" [] 0 [] true
      (fun _ => { status_code := 400, text := "bad request", jsonBody := Json.null })).2.1 (by decide),
   (claim_C3_status_handling "k" "u" "b" "m" [] 0 [] true
      (fun _ => { status_code := 400, text := "bad request", jsonBody := Json.null })).2.2.2 (by decide)⟩

/-- C1 counterexample: the claim says the explicit `model` argument takes
precedence over an identically named option key, but with
`options = {"model": "opt-model"}` and `model = "m"` the payload's
`model` field is the option's value, not `"m"`: in
`{"model": model, "messages": messages, **options}` the options are
merged last and win. -/
theorem claim_C1_counterexample :
    dictGet? (chat_completion_request "k" "u" [] "m" 1
        [("model", Json.str "opt-model")]).payload "model" =
      some (Json.str "opt-model") ∧
    dictGet? (chat_completion_request "k" "u" [] "m" 1
        [("model", Json.str "opt-model")]).payload "model" ≠
      some (Json.str "m") := by
  constructor
  · rfl
  · intro h
    rw [show dictGet? (chat_completion_request "k" "u" [] "m" 1
        [("model", Json.str "opt-model")]).payload "model" =
        some (Json.str "opt-model") from rfl] at h
    simp at h

/-- C1 (amended): the payload has exactly the keys `model`, `messages`
plus all option keys, and the options are merged after `model` and
`messages` are set, so an identically named option key overwrites the
explicit `model`/`messages` argument; the explicit arguments are kept
exactly when no option key collides with them. -/
theorem claim_C1_amended (api_key chat_url : String) (messages : List Json)
    (model : String) (timeout : Int) (options : List (String × Json))
    (hnd : (options.map Prod.fst).Nodup) :
    (∀ k : String,
      k ∈ (chat_completion_request api_key chat_url messages model timeout options).payload.map Prod.fst ↔
        (k = "model" ∨ k = "messages" ∨ k ∈ options.map Prod.fst)) ∧
    (∀ (k : String) (v : Json), (k, v) ∈ options →
      dictGet? (chat_completion_request api_key chat_url messages model timeout options).payload k =
        some v) ∧
    ("model" ∉ options.map Prod.fst →
      dictGet? (chat_completion_request api_key chat_url messages model timeout options).payload "model" =
        some (Json.str model)) ∧
    ("messages" ∉ options.map Prod.fst →
      dictGet? (chat_completion_request api_key chat_url messages model timeout options).payload "messages" =
        some (Json.arr messages)) := by
  have hpl : (chat_completion_request api_key chat_url messages model timeout options).payload =
      options.foldl (fun d kv => dictSet d kv.1 kv.2)
        [("model", Json.str model), ("messages", Json.arr messages)] := rfl
  refine ⟨fun k => ?_, fun k v hv => ?_, fun hm => ?_, fun hm => ?_⟩
  · rw [hpl, mem_keys_foldl_dictSet]
    simp only [List.map_cons, List.map_nil, List.mem_cons, List.not_mem_nil, or_false]
    tauto
  · rw [hpl, foldl_dictSet_get_mem _ _ _ _ hnd hv]
  · rw [hpl, foldl_dictSet_get_not_mem _ _ _ hm]
    rfl
  · rw [hpl, foldl_dictSet_get_not_mem _ _ _ hm]
    rfl

/-- C1 witness: with the single option `temperature`, the option is in
the payload and the explicit `model` argument survives. -/
theorem claim_C1_amended_witness :
    dictGet? (chat_completion_request "k" "u" [] "m" 1
        [("temperature", Json.num 1)]).payload "temperature" = some (Json.num 1) ∧
    dictGet? (chat_completion_request "k" "u" [] "m" 1
        [("temperature", Json.num 1)]).payload "model" = some (Json.str "m") :=
  ⟨(claim_C1_amended "k" "u" [] "m" 1 [("temperature", Json.num 1)]
      (by simp)).2.1 "temperature" (Json.num 1) (List.mem_singleton.mpr rfl),
   (claim_C1_amended "k" "u" [] "m" 1 [("temperature", Json.num 1)]
      (by simp)).2.2.1 (by simp)⟩

/-- C4 counterexample: `"http://host////x"` has an explicit scheme, yet
`normalize_url` is not idempotent on it: the first pass yields
`"http://host///x"` and the second collapses further to
`"http://host//x"`. -/
theorem claim_C4_counterexample :
    (urlparse "http://host////x".toList).scheme ≠ [] ∧
    normalize_url (normalize_url "http://host////x") ≠
      normalize_url "http://host////x" := by
  constructor <;> decide

/-- C4 (amended): `normalize_url` is idempotent on every URL whose
normalized form parses with a nonempty scheme, reassembles to itself
unchanged, and contains no triple slash (a run of four or more slashes,
as in the counterexample, survives one collapsing pass and violates the
last condition). -/
theorem claim_C4_amended (url : String)
    (h1 : (urlparse (normalize_url url).toList).scheme ≠ [])
    (h2 : urlunparse (urlparse (normalize_url url).toList) = (normalize_url url).toList)
    (h3 : hasRun3 (normalize_url url).toList = false) :
    normalize_url (normalize_url url) = normalize_url url := by
  have hnb : '\\' ∉ (normalize_url url).toList := backslash_not_mem_normalize_core _
  calc normalize_url (normalize_url url)
      = ⟨replace3 (reassemble_core (normalize_url url).toList)⟩ := rfl
    _ = ⟨replace3 (urlunparse (urlparse (normalize_url url).toList))⟩ := by
        unfold reassemble_core defaultHttps
        rw [map_backslashToSlash_eq_self hnb, if_neg h1]
    _ = ⟨replace3 (normalize_url url).toList⟩ := by rw [h2]
    _ = ⟨(normalize_url url).toList⟩ := by rw [replace3_eq_self h3]
    _ = normalize_url url := rfl

/-- C4 witness: the conditions hold for `"http://api.example.com"`, so
normalizing its normalization changes nothing. -/
theorem claim_C4_amended_witness :
    normalize_url (normalize_url "http://api.example.com") =
      normalize_url "http://api.example.com" :=
  claim_C4_amended "http://api.example.com" (by decide) (by decide) (by decide)

/-- C8: `normalize_url` post-processes the reassembled URL by collapsing
the occurrences of `"///"` to `"//"` (left to right; when no four-slash
run is present the result has no triple slash at all), and in particular
`"api.example.com"` reassembles to `"https:///api.example.com"` and
normalizes to `"https://api.example.com"`. -/
theorem claim_C8_collapse :
    (∀ url : String, (normalize_url url).toList = replace3 (reassemble_core url.toList)) ∧
    (∀ l : List Char, hasRun4 l = false → hasRun3 (replace3 l) = false) ∧
    reassemble_core "api.example.com".toList = "https:///api.example.com".toList ∧
    normalize_url "api.example.com" = "https://api.example.com" :=
  ⟨fun _ => rfl, fun _ h => hasRun3_replace3 h, by decide, by decide⟩

/-- C8 witness: the reassembled `"https:///api.example.com"` has no
four-slash run, so its collapse contains no triple slash. -/
theorem claim_C8_collapse_witness :
    hasRun3 (replace3 "https:///api.example.com".toList) = false :=
  claim_C8_collapse.2.1 "https:///api.example.com".toList (by decide)

/-- C9: `normalize_url` first replaces every backslash by a slash, so it
coincides with itself precomposed with that replacement, and its output
never contains a backslash. -/
theorem claim_C9_backslash (s : String) :
    normalize_url s = normalize_url ⟨s.toList.map backslashToSlash⟩ ∧
    '\\' ∉ (normalize_url s).toList := by
  refine ⟨?_, backslash_not_mem_normalize_core _⟩
  show (⟨normalize_url_core s.toList⟩ : String) =
    ⟨normalize_url_core (s.toList.map backslashToSlash)⟩
  unfold normalize_url_core reassemble_core
  rw [map_backslashToSlash_idem]

/-- C5: on a 200 response, `valid_models` returns the `id` of each entry
of `data` in server order; with `gpt_only` it keeps exactly the
identifiers containing `"gpt"`, e.g. `[{"id": "gpt-4"}, {"id":
"text-embed"}]` yields `["gpt-4"]` filtered and both identifiers in
order unfiltered. -/
theorem claim_C5_list_models (entries : List Json)
    (h : ∀ e ∈ entries, ∃ s, jsonGet? e "id" = some (Json.str s)) :
    valid_models_models entries false =
      Except.ok (entries.map (fun e => jsonGet? e "id")) ∧
    valid_models_models entries true =
      Except.ok ((entries.map (fun e => jsonGet? e "id")).filter gptTest) ∧
    valid_models_models
        [Json.obj [("id", Json.str "gpt-4")], Json.obj [("id", Json.str "text-embed")]] true =
      Except.ok [some (Json.str "gpt-4")] ∧
    valid_models_models
        [Json.obj [("id", Json.str "gpt-4")], Json.obj [("id", Json.str "text-embed")]] false =
      Except.ok [some (Json.str "gpt-4"), some (Json.str "text-embed")] := by
  refine ⟨rfl, ?_, rfl, rfl⟩
  show gpt_filter (entries.map (fun e => jsonGet? e "id")) = _
  apply gpt_filter_ok
  intro v hv
  rcases List.mem_map.mp hv with ⟨e, he, rfl⟩
  exact h e he

/-- C5 witness: the concrete two-entry server data of the claim. -/
theorem claim_C5_list_models_witness :
    valid_models_models
        [Json.obj [("id", Json.str "gpt-4")], Json.obj [("id", Json.str "text-embed")]] true =
      Except.ok [some (Json.str "gpt-4")] :=
  (claim_C5_list_models
    [Json.obj [("id", Json.str "gpt-4")], Json.obj [("id", Json.str "text-embed")]]
    (by
      intro e he
      rcases List.mem_cons.mp he with rfl | he
      · exact ⟨"gpt-4", rfl⟩
      · rcases List.mem_singleton.mp he with rfl
        exact ⟨"text-embed", rfl⟩)).2.2.1

/-- C10: a 200 response is processed without error only when every entry
of `data` has an `id`: if some entry lacks it, the `gpt` filter hits a
`None` and raises `TypeError` (not the API error), and without the
filter the returned list carries a `None` placeholder. -/
theorem claim_C10_missing_id (entries : List Json)
    (h : ∃ e ∈ entries, jsonGet? e "id" = none) :
    valid_models_models entries true = Except.error PyErr.typeError ∧
    valid_models_models entries false =
      Except.ok (entries.map (fun e => jsonGet? e "id")) ∧
    none ∈ entries.map (fun e => jsonGet? e "id") := by
  obtain ⟨e, he, hid⟩ := h
  have hnone : none ∈ entries.map (fun e => jsonGet? e "id") :=
    List.mem_map.mpr ⟨e, he, hid⟩
  exact ⟨gpt_filter_error_of_none hnone, rfl, hnone⟩

/-- C10 witness: with entries `[{"id": "gpt-4"}, {}]`, the filtered call
raises `TypeError` and the unfiltered call returns a `None` placeholder. -/
theorem claim_C10_missing_id_witness :
    valid_models_models [Json.obj [("id", Json.str "gpt-4")], Json.obj []] true =
      Except.error PyErr.typeError ∧
    valid_models_models [Json.obj [("id", Json.str "gpt-4")], Json.obj []] false =
      Except.ok [some (Json.str "gpt-4"), none] := by
  have h := claim_C10_missing_id [Json.obj [("id", Json.str "gpt-4")], Json.obj []]
    ⟨Json.obj [], List.mem_cons_of_mem _ (List.mem_singleton.mpr rfl), rfl⟩
  exact ⟨h.1, h.2.1⟩

end Chattool
